import Mathlib

/-!
Verification of the object-encoder engine (`src/lib/index.ts`).

The engine is `createObjectEncoder`: given a configuration (`typeTag`, `isSource`,
`toPlainObject`, `fromPlainObject`) it returns two functions, `encode` and `decode`,
operating on arbitrary JavaScript values.  We embed JavaScript values shallowly as the
inductive type `JSVal` (containers carry their own-enumerable entries in `Object.entries`
order), and translate each function of the source file on top of it.

Reference identity: the source returns the *original* container reference when no key
changed (`containsEscapedKey ? clone : arg`).  The embedding instruments this with a
Boolean: `encodeRef` / `decodeRef` / `replaceObjectKeyRef` return a pair whose second
component is `true` exactly when the code path returns the input reference itself, and
`false` when it returns a freshly allocated container (the clone, the tag-insertion object
literal, or the converter's result, none of which can alias the input).
-/

set_option autoImplicit false

namespace ObjectEncoder

/-- Discriminant values allowed for `typeTag.value` in the source: `string | number | null`. -/
inductive TagValue where
  | str (s : String)
  | num (n : Int)
  | null
  deriving DecidableEq

/-- Shallow embedding of a JavaScript value: primitives, plain objects and arrays.
Containers carry their own enumerable entries in `Object.entries` order. -/
inductive JSVal where
  | undefined
  | null
  | bool (b : Bool)
  | num (n : Int)
  | str (s : String)
  | obj (entries : List (String × JSVal))
  | arr (entries : List (String × JSVal))

mutual

/-- Decidable equality on `JSVal`, by mutual recursion with entry lists. -/
def JSVal.decEq : (a b : JSVal) → Decidable (a = b)
  | .undefined, .undefined => isTrue rfl
  | .null, .null => isTrue rfl
  | .bool a, .bool b =>
      if h : a = b then isTrue (by rw [h]) else isFalse (by simp [h])
  | .num a, .num b =>
      if h : a = b then isTrue (by rw [h]) else isFalse (by simp [h])
  | .str a, .str b =>
      if h : a = b then isTrue (by rw [h]) else isFalse (by simp [h])
  | .obj a, .obj b =>
      match JSVal.decEqEntries a b with
      | isTrue h => isTrue (by rw [h])
      | isFalse h => isFalse (by simp [h])
  | .arr a, .arr b =>
      match JSVal.decEqEntries a b with
      | isTrue h => isTrue (by rw [h])
      | isFalse h => isFalse (by simp [h])
  | .undefined, .null | .undefined, .bool _ | .undefined, .num _ | .undefined, .str _ | .undefined, .obj _ | .undefined, .arr _ => isFalse (by simp)
  | .null, .undefined | .null, .bool _ | .null, .num _ | .null, .str _ | .null, .obj _ | .null, .arr _ => isFalse (by simp)
  | .bool _, .undefined | .bool _, .null | .bool _, .num _ | .bool _, .str _ | .bool _, .obj _ | .bool _, .arr _ => isFalse (by simp)
  | .num _, .undefined | .num _, .null | .num _, .bool _ | .num _, .str _ | .num _, .obj _ | .num _, .arr _ => isFalse (by simp)
  | .str _, .undefined | .str _, .null | .str _, .bool _ | .str _, .num _ | .str _, .obj _ | .str _, .arr _ => isFalse (by simp)
  | .obj _, .undefined | .obj _, .null | .obj _, .bool _ | .obj _, .num _ | .obj _, .str _ | .obj _, .arr _ => isFalse (by simp)
  | .arr _, .undefined | .arr _, .null | .arr _, .bool _ | .arr _, .num _ | .arr _, .str _ | .arr _, .obj _ => isFalse (by simp)

/-- Decidable equality on entry lists, by mutual recursion with `JSVal.decEq`. -/
def JSVal.decEqEntries : (a b : List (String × JSVal)) → Decidable (a = b)
  | [], [] => isTrue rfl
  | [], _ :: _ => isFalse (by simp)
  | _ :: _, [] => isFalse (by simp)
  | (k, v) :: t, (k', v') :: t' =>
      if hk : k = k' then
        match JSVal.decEq v v' with
        | isTrue hv =>
            match JSVal.decEqEntries t t' with
            | isTrue ht => isTrue (by rw [hk, hv, ht])
            | isFalse ht => isFalse (by simp [ht])
        | isFalse hv => isFalse (by simp [hv])
      else isFalse (by simp [hk])

end

instance : DecidableEq JSVal := JSVal.decEq

/-- The `typeTag` record of `EncoderOptions`.  The spec fixes `escapeCharacter` to a
single-character string, so it is embedded as a `Char`. -/
structure TypeTag where
  key : String
  value : TagValue
  escapeCharacter : Char

/-- The configuration passed to `createObjectEncoder`.  `Source` and `PlainObject` are
both embedded as `JSVal`, so the two converters and the predicate act on `JSVal`. -/
structure EncoderOptions where
  typeTag : TypeTag
  isSource : JSVal → Bool
  toPlainObject : JSVal → JSVal
  fromPlainObject : JSVal → JSVal

/-- Tests `Object(arg) !== arg`: true exactly for non-object values. -/
def isPrimitive : JSVal → Bool
  | .obj _ => false
  | .arr _ => false
  | _ => true

/-- Tests `Array.isArray(arg)`. -/
def isSequence : JSVal → Bool
  | .arr _ => true
  | _ => false

/-- Own enumerable entries of a container, as `Object.entries` lists them; empty for
primitives. -/
def entriesOf : JSVal → List (String × JSVal)
  | .obj e => e
  | .arr e => e
  | _ => []

/-- Entries contributed by spreading a value into an object literal (`{ ...x }`):
containers contribute their entries, strings contribute their indexed characters, other
primitives contribute nothing. -/
def spreadList : JSVal → List (String × JSVal)
  | .obj e => e
  | .arr e => e
  | .str s => s.data.enum.map (fun ic => (Nat.repr ic.1, JSVal.str (String.mk [ic.2])))
  | _ => []

/-- Property read `v[k]` on a container: the first entry with key `k`, `undefined` when
absent. -/
def jsGet (v : JSVal) (k : String) : JSVal :=
  match (entriesOf v).find? (fun kv => kv.1 == k) with
  | some kv => kv.2
  | none => .undefined

/-- Strict equality `v === t` between a value and a tag discriminant (all discriminants
are primitives, so strict equality is plain equality of kind and payload). -/
def tagStrictEq : JSVal → TagValue → Bool
  | .str a, .str b => a == b
  | .num a, .num b => a == b
  | .null, .null => true
  | _, _ => false

/-- The tag discriminant as a JavaScript value. -/
def jsOfTag : TagValue → JSVal
  | .str s => .str s
  | .num n => .num n
  | .null => .null

/-- Property assignment `clone[k] = v` on an entry list: overwrite in place when the key
exists, append otherwise. -/
def upsert : List (String × JSVal) → String → JSVal → List (String × JSVal)
  | [], k, v => [(k, v)]
  | (k', v') :: rest, k, v =>
      if k' = k then (k, v) :: rest else (k', v') :: upsert rest k v

/-- Entry list of an object literal built from the given key/value sequence (later
occurrences of a key overwrite in place, as in JavaScript literal/spread evaluation). -/
def buildEntries (l : List (String × JSVal)) : List (String × JSVal) :=
  l.foldl (fun acc kv => upsert acc kv.1 kv.2) []

/-- JavaScript `str.slice(-n)` for `n = key.length`, on character lists: the whole string
when `n = 0` (as `slice(-0)` is `slice(0)`), otherwise the last `n` characters. -/
def jsSliceEnd (s : List Char) (n : Nat) : List Char :=
  if n = 0 then s else s.drop (s.length - n)

/-- Translation of `getEscapeCharCount`, on character lists: `count = s.length - key.length`;
when `count >= 0`, the trailing slice equals `key`, and the first `count` characters all
equal the escape character, return `count`, else `-1`. -/
def escCount (key : List Char) (esc : Char) (s : List Char) : Int :=
  if key.length ≤ s.length then
    if jsSliceEnd s key.length = key then
      if (s.take (s.length - key.length)).all (fun c => c == esc) then
        ((s.length - key.length : Nat) : Int)
      else -1
    else -1
  else -1

/-- Translation of `getEscapeCharCount(str)` of the source (closed over the tag). -/
def getEscapeCharCount (tag : TypeTag) (str : String) : Int :=
  escCount tag.key.data tag.escapeCharacter str.data

/-- Translation of `prependEscapeChar`: `getEscapeCharCount(str) === -1 ? str :
escapeCharacter + str`. -/
def prependEscapeChar (tag : TypeTag) (str : String) : String :=
  if getEscapeCharCount tag str = -1 then str
  else String.mk (tag.escapeCharacter :: str.data)

/-- Translation of `removePrependedEscapeChar`: `getEscapeCharCount(str) > 0 ?
str.slice(1) : str`. -/
def removePrependedEscapeChar (tag : TypeTag) (str : String) : String :=
  if 0 < getEscapeCharCount tag str then String.mk (str.data.drop 1) else str

/-- The key-replacing loop of `replaceObjectKey`: fold the entries into a fresh clone via
`clone[replaceKey(k)] = v`, tracking `containsEscapedKey` in the Boolean component. -/
def replaceEntries (f : String → String) (entries : List (String × JSVal)) :
    List (String × JSVal) × Bool :=
  entries.foldl (fun acc kv => (upsert acc.1 (f kv.1) kv.2, acc.2 || (f kv.1 != kv.1)))
    ([], false)

/-- Translation of `replaceObjectKey` with reference instrumentation: primitives pass
through (same reference); for containers, a clone (`[]` for arrays, `{}` otherwise) is
filled with the replaced keys and returned only if some key changed, else the original
reference is returned.  The Boolean is `true` when the original reference is returned. -/
def replaceObjectKeyRef (f : String → String) (arg : JSVal) : JSVal × Bool :=
  match arg with
  | .obj entries =>
      let r := replaceEntries f entries
      if r.2 then (.obj r.1, false) else (.obj entries, true)
  | .arr entries =>
      let r := replaceEntries f entries
      if r.2 then (.arr r.1, false) else (.arr entries, true)
  | v => (v, true)

/-- Value computed by `replaceObjectKey`. -/
def replaceObjectKey (f : String → String) (arg : JSVal) : JSVal :=
  (replaceObjectKeyRef f arg).1

/-- Translation of `encode` with reference instrumentation: convert when `isSource`,
escape keys, and for source inputs build the tag-inserting object literal
`{ [key]: value, ...escaped }` (always a fresh plain object). -/
def encodeRef (cfg : EncoderOptions) (arg : JSVal) : JSVal × Bool :=
  let isSourceType := cfg.isSource arg
  let converted := if isSourceType then cfg.toPlainObject arg else arg
  let escaped := replaceObjectKeyRef (prependEscapeChar cfg.typeTag) converted
  if isSourceType then
    (.obj (buildEntries ((cfg.typeTag.key, jsOfTag cfg.typeTag.value) :: spreadList escaped.1)),
      false)
  else escaped

/-- Value computed by `encode`. -/
def encode (cfg : EncoderOptions) (arg : JSVal) : JSVal :=
  (encodeRef cfg arg).1

/-- The tag test of `decode`: `arg[key] === value`. -/
def isTagged (cfg : EncoderOptions) (arg : JSVal) : Bool :=
  tagStrictEq (jsGet arg cfg.typeTag.key) cfg.typeTag.value

/-- The tag-stripping step of `decode`: `arg = { ...arg }; delete arg[key]`.  The spread
literal is a fresh plain object whatever the container kind of `arg`. -/
def stripTag (cfg : EncoderOptions) (arg : JSVal) : JSVal :=
  .obj ((buildEntries (entriesOf arg)).filter (fun kv => kv.1 != cfg.typeTag.key))

/-- Translation of `decode` with reference instrumentation: primitives pass through; the
tag test uses strict equality; a tagged value is spread-cloned with the tag key deleted;
keys are unescaped; a tagged value finally goes through `fromPlainObject` (whose result
cannot alias the original input, as it only receives the fresh clone). -/
def decodeRef (cfg : EncoderOptions) (arg : JSVal) : JSVal × Bool :=
  if isPrimitive arg then (arg, true)
  else
    let t := isTagged cfg arg
    let arg2 := if t then stripTag cfg arg else arg
    let r := replaceObjectKeyRef (removePrependedEscapeChar cfg.typeTag) arg2
    if t then (cfg.fromPlainObject r.1, false) else r

/-- Value computed by `decode`. -/
def decode (cfg : EncoderOptions) (arg : JSVal) : JSVal :=
  (decodeRef cfg arg).1

/-- The tag of the demonstration encoder: `{key: "$type", value: "Error", escapeCharacter: "_"}`. -/
def demoTag : TypeTag :=
  { key := "$type", value := .str "Error", escapeCharacter := '_' }

/-- Configuration whose `isSource` rejects everything (so encode never converts or tags)
and whose `fromPlainObject` returns a sentinel, so that any application of
`fromPlainObject` would be visible in the output. -/
def cfgReject : EncoderOptions :=
  { typeTag := demoTag
    isSource := fun _ => false
    toPlainObject := fun v => v
    fromPlainObject := fun _ => .str "fromPlainObject was applied" }

/-- Configuration recognising the single source value `5`, whose plain representation is
the primitive `7`; `fromPlainObject` is a two-sided match so that it is exactly inverse to
`toPlainObject` on source values. -/
def cfgNumPayload : EncoderOptions :=
  { typeTag := demoTag
    isSource := fun v => match v with | .num 5 => true | _ => false
    toPlainObject := fun _ => .num 7
    fromPlainObject := fun v => match v with | .num 7 => .num 5 | w => w }

/-- Configuration recognising the single source value `"SRC"`, whose plain representation
is the object `{name: "SRC"}`, with the exact inverse as `fromPlainObject`. -/
def cfgStrSource : EncoderOptions :=
  { typeTag := demoTag
    isSource := fun v => match v with | .str "SRC" => true | _ => false
    toPlainObject := fun _ => .obj [("name", .str "SRC")]
    fromPlainObject := fun v => match v with | .obj [("name", .str "SRC")] => .str "SRC" | w => w }

/-- Configuration recognising the single source value `0`, whose plain representation is
the array `[1, 2]`. -/
def cfgArrPayload : EncoderOptions :=
  { typeTag := demoTag
    isSource := fun v => match v with | .num 0 => true | _ => false
    toPlainObject := fun _ => .arr [("0", .num 1), ("1", .num 2)]
    fromPlainObject := fun w => w }

/-- Configuration recognising the single source value `0`, whose plain representation is
the primitive string `"ab"`. -/
def cfgStrPayload : EncoderOptions :=
  { typeTag := demoTag
    isSource := fun v => match v with | .num 0 => true | _ => false
    toPlainObject := fun _ => .str "ab"
    fromPlainObject := fun w => w }

/-- Characterization of a tag-shaped key following the spec's words, on character lists:
"compute `n = k.length - key.length`.  If `n >= 0` and the trailing substring of `k` of
length `key.length` equals `key`, and every one of the `n` preceding characters equals
`escapeChar`, then `k` is tag-shaped".  Stated for comparison with the source-derived
`escCount`. -/
def specTagShapedL (key : List Char) (esc : Char) (s : List Char) : Prop :=
  key.length ≤ s.length ∧ s.drop (s.length - key.length) = key ∧
    ∀ c ∈ s.take (s.length - key.length), c = esc

instance (key : List Char) (esc : Char) (s : List Char) :
    Decidable (specTagShapedL key esc s) := by
  unfold specTagShapedL; infer_instance

/-- The spec's tag-shape test on strings, for a given tag. -/
def specTagShaped (tag : TypeTag) (k : String) : Prop :=
  specTagShapedL tag.key.data tag.escapeCharacter k.data

instance (tag : TypeTag) (k : String) : Decidable (specTagShaped tag k) := by
  unfold specTagShaped; infer_instance

/-! Lemmas about entry lists and the key-replacement loop. -/

theorem upsert_of_not_mem {l : List (String × JSVal)} {k : String} (v : JSVal)
    (h : k ∉ l.map Prod.fst) : upsert l k v = l ++ [(k, v)] := by
  induction l with
  | nil => rfl
  | cons kv t ih =>
      obtain ⟨k', v'⟩ := kv
      simp only [List.map_cons, List.mem_cons, not_or] at h
      simp only [upsert, if_neg (fun he : k' = k => h.1 he.symm), List.cons_append]
      rw [ih h.2]

theorem replaceEntries_loop_snd (f : String → String) (entries : List (String × JSVal)) :
    ∀ acc : List (String × JSVal) × Bool,
      (entries.foldl (fun acc kv => (upsert acc.1 (f kv.1) kv.2, acc.2 || (f kv.1 != kv.1)))
          acc).2
        = (acc.2 || entries.any (fun kv => f kv.1 != kv.1)) := by
  induction entries with
  | nil => intro acc; simp
  | cons kv t ih => intro acc; simp [List.foldl_cons, ih, Bool.or_assoc]

theorem replaceEntries_snd (f : String → String) (entries : List (String × JSVal)) :
    (replaceEntries f entries).2 = entries.any (fun kv => f kv.1 != kv.1) := by
  simpa using replaceEntries_loop_snd f entries ([], false)

theorem replaceEntries_loop_fst (f : String → String) (entries : List (String × JSVal)) :
    ∀ (acc : List (String × JSVal)) (b : Bool),
      (acc.map Prod.fst ++ entries.map (fun kv => f kv.1)).Nodup →
      ((entries.foldl (fun acc kv => (upsert acc.1 (f kv.1) kv.2, acc.2 || (f kv.1 != kv.1)))
          (acc, b)).1
        = acc ++ entries.map (fun kv => (f kv.1, kv.2))) := by
  induction entries with
  | nil => intro acc b _; simp
  | cons kv t ih =>
      intro acc b h
      simp only [List.map_cons] at h
      have hnm : f kv.1 ∉ acc.map Prod.fst := by
        rcases List.nodup_append.mp h with ⟨_, _, hdisj⟩
        intro hm
        exact hdisj hm (List.mem_cons_self _ _)
      simp only [List.foldl_cons, upsert_of_not_mem kv.2 hnm]
      rw [ih (acc ++ [(f kv.1, kv.2)]) (b || (f kv.1 != kv.1))
        (by simpa [List.append_assoc] using h)]
      simp

theorem replaceEntries_fst (f : String → String) (entries : List (String × JSVal))
    (h : (entries.map (fun kv => f kv.1)).Nodup) :
    (replaceEntries f entries).1 = entries.map (fun kv => (f kv.1, kv.2)) := by
  simpa using replaceEntries_loop_fst f entries [] false (by simpa using h)

theorem buildEntries_loop (l : List (String × JSVal)) :
    ∀ acc : List (String × JSVal), ((acc ++ l).map Prod.fst).Nodup →
      l.foldl (fun acc kv => upsert acc kv.1 kv.2) acc = acc ++ l := by
  induction l with
  | nil => intro acc _; simp
  | cons kv t ih =>
      intro acc h
      simp only [List.map_append, List.map_cons] at h
      have hnm : kv.1 ∉ acc.map Prod.fst := by
        rcases List.nodup_append.mp h with ⟨_, _, hdisj⟩
        intro hm
        exact hdisj hm (List.mem_cons_self _ _)
      simp only [List.foldl_cons, upsert_of_not_mem kv.2 hnm]
      rw [ih (acc ++ [(kv.1, kv.2)])
        (by simpa [List.append_assoc] using h)]
      simp

theorem buildEntries_eq_self {l : List (String × JSVal)} (h : (l.map Prod.fst).Nodup) :
    buildEntries l = l := by
  simpa [buildEntries] using buildEntries_loop l [] (by simpa using h)

theorem replaceObjectKeyRef_snd (f : String → String) (v : JSVal) :
    (replaceObjectKeyRef f v).2 = !((entriesOf v).any (fun kv => f kv.1 != kv.1)) := by
  cases v with
  | obj entries =>
      simp only [replaceObjectKeyRef, entriesOf]
      by_cases hb : (replaceEntries f entries).2 = true
      · rw [if_pos hb, replaceEntries_snd] at *
        simp [hb]
      · rw [if_neg hb]
        rw [Bool.not_eq_true, replaceEntries_snd] at hb
        simp [hb]
  | arr entries =>
      simp only [replaceObjectKeyRef, entriesOf]
      by_cases hb : (replaceEntries f entries).2 = true
      · rw [if_pos hb, replaceEntries_snd] at *
        simp [hb]
      · rw [if_neg hb]
        rw [Bool.not_eq_true, replaceEntries_snd] at hb
        simp [hb]
  | undefined => rfl
  | null => rfl
  | bool b => rfl
  | num n => rfl
  | str s => rfl

theorem replaceObjectKeyRef_id (f : String → String) (v : JSVal)
    (h : ∀ kv ∈ entriesOf v, f kv.1 = kv.1) :
    replaceObjectKeyRef f v = (v, true) := by
  cases v with
  | obj entries =>
      have hb : (replaceEntries f entries).2 = false := by
        rw [replaceEntries_snd]
        simp only [List.any_eq_false, bne_iff_ne, ne_eq, not_not]
        exact h
      simp [replaceObjectKeyRef, hb]
  | arr entries =>
      have hb : (replaceEntries f entries).2 = false := by
        rw [replaceEntries_snd]
        simp only [List.any_eq_false, bne_iff_ne, ne_eq, not_not]
        exact h
      simp [replaceObjectKeyRef, hb]
  | undefined => rfl
  | null => rfl
  | bool b => rfl
  | num n => rfl
  | str s => rfl

theorem replaceObjectKeyRef_ref (f : String → String) (v : JSVal)
    (h : (replaceObjectKeyRef f v).2 = true) :
    (replaceObjectKeyRef f v).1 = v := by
  cases v with
  | obj entries =>
      by_cases hb : (replaceEntries f entries).2 = true <;>
        simp_all [replaceObjectKeyRef]
  | arr entries =>
      by_cases hb : (replaceEntries f entries).2 = true <;>
        simp_all [replaceObjectKeyRef]
  | undefined => rfl
  | null => rfl
  | bool b => rfl
  | num n => rfl
  | str s => rfl

theorem replaceObjectKey_obj (f : String → String) (entries : List (String × JSVal))
    (h : (entries.map (fun kv => f kv.1)).Nodup) :
    replaceObjectKey f (.obj entries) = .obj (entries.map (fun kv => (f kv.1, kv.2))) := by
  unfold replaceObjectKey
  by_cases hb : (replaceEntries f entries).2 = true
  · simp [replaceObjectKeyRef, hb, replaceEntries_fst f entries h]
  · have hall : ∀ kv ∈ entries, f kv.1 = kv.1 := by
      rw [replaceEntries_snd] at hb
      simpa only [List.any_eq_true, not_exists, not_and, Bool.not_eq_true,
        List.any_eq_false, bne_iff_ne, ne_eq, not_not] using hb
    simp only [replaceObjectKeyRef, Bool.not_eq_true] at hb ⊢
    rw [if_neg (by simp [hb])]
    have hmap : entries.map (fun kv => (f kv.1, kv.2)) = entries.map id :=
      List.map_congr_left (fun kv hkv => by rw [hall kv hkv]; exact Prod.mk.eta)
    rw [hmap, List.map_id]

theorem replaceObjectKey_arr (f : String → String) (entries : List (String × JSVal))
    (h : (entries.map (fun kv => f kv.1)).Nodup) :
    replaceObjectKey f (.arr entries) = .arr (entries.map (fun kv => (f kv.1, kv.2))) := by
  unfold replaceObjectKey
  by_cases hb : (replaceEntries f entries).2 = true
  · simp [replaceObjectKeyRef, hb, replaceEntries_fst f entries h]
  · have hall : ∀ kv ∈ entries, f kv.1 = kv.1 := by
      rw [replaceEntries_snd] at hb
      simpa only [List.any_eq_true, not_exists, not_and, Bool.not_eq_true,
        List.any_eq_false, bne_iff_ne, ne_eq, not_not] using hb
    simp only [replaceObjectKeyRef, Bool.not_eq_true] at hb ⊢
    rw [if_neg (by simp [hb])]
    have hmap : entries.map (fun kv => (f kv.1, kv.2)) = entries.map id :=
      List.map_congr_left (fun kv hkv => by rw [hall kv hkv]; exact Prod.mk.eta)
    rw [hmap, List.map_id]

/-! Lemmas about the escape-character counter. -/

theorem escCount_spec (key : List Char) (esc : Char) (s : List Char) (hk : key ≠ []) :
    escCount key esc s
      = if specTagShapedL key esc s then ((s.length - key.length : Nat) : Int) else -1 := by
  have hkl : key.length ≠ 0 := by simpa using fun h => hk (List.length_eq_zero.mp h)
  unfold escCount jsSliceEnd specTagShapedL
  rw [if_neg hkl]
  by_cases h1 : key.length ≤ s.length
  · rw [if_pos h1]
    by_cases h2 : s.drop (s.length - key.length) = key
    · rw [if_pos h2]
      by_cases h3 : (s.take (s.length - key.length)).all (fun c => c == esc) = true
      · rw [if_pos h3, if_pos]
        refine ⟨h1, h2, ?_⟩
        simpa only [List.all_eq_true, beq_iff_eq] using h3
      · rw [if_neg h3, if_neg]
        intro hsh
        exact h3 (by simpa only [List.all_eq_true, beq_iff_eq] using hsh.2.2)
    · rw [if_neg h2, if_neg]
      exact fun hsh => h2 hsh.2.1
  · rw [if_neg h1, if_neg]
    exact fun hsh => h1 hsh.1

theorem specTagShapedL_self (key : List Char) (esc : Char) : specTagShapedL key esc key :=
  ⟨le_refl _, by simp, by simp⟩

theorem specTagShapedL_cons {key : List Char} {esc : Char} {s : List Char}
    (h : specTagShapedL key esc s) : specTagShapedL key esc (esc :: s) := by
  obtain ⟨h1, h2, h3⟩ := h
  have hlen : (esc :: s).length - key.length = (s.length - key.length) + 1 := by
    simp only [List.length_cons]
    omega
  refine ⟨by simp only [List.length_cons]; omega, ?_, ?_⟩
  · rw [hlen, List.drop_succ_cons]
    exact h2
  · rw [hlen, List.take_succ_cons]
    intro c hc
    rcases List.mem_cons.mp hc with h | h
    · exact h
    · exact h3 c h

/-! String-level lemmas about the escaping helpers. -/

theorem key_data_ne_nil {tag : TypeTag} (hk : tag.key ≠ "") : tag.key.data ≠ [] := by
  intro h
  exact hk (@String.ext tag.key "" (by rw [h]))

theorem getEscapeCharCount_spec (tag : TypeTag) (k : String) (hk : tag.key ≠ "") :
    getEscapeCharCount tag k
      = if specTagShaped tag k then ((k.data.length - tag.key.data.length : Nat) : Int)
        else -1 :=
  escCount_spec tag.key.data tag.escapeCharacter k.data (key_data_ne_nil hk)

theorem prependEscapeChar_of_not_shaped {tag : TypeTag} {k : String} (hk : tag.key ≠ "")
    (h : ¬ specTagShaped tag k) : prependEscapeChar tag k = k := by
  simp [prependEscapeChar, getEscapeCharCount_spec tag k hk, h]

theorem prependEscapeChar_of_shaped {tag : TypeTag} {k : String} (hk : tag.key ≠ "")
    (h : specTagShaped tag k) :
    prependEscapeChar tag k = String.mk (tag.escapeCharacter :: k.data) := by
  have hne : getEscapeCharCount tag k ≠ -1 := by
    rw [getEscapeCharCount_spec tag k hk, if_pos h]
    omega
  simp [prependEscapeChar, hne]

theorem removePrependedEscapeChar_of_nonpos {tag : TypeTag} {k : String}
    (h : ¬ 0 < getEscapeCharCount tag k) : removePrependedEscapeChar tag k = k := by
  simp [removePrependedEscapeChar, h]

theorem getEscapeCharCount_prepended {tag : TypeTag} {k : String} (hk : tag.key ≠ "")
    (h : specTagShaped tag k) :
    getEscapeCharCount tag (String.mk (tag.escapeCharacter :: k.data))
      = ((k.data.length + 1 - tag.key.data.length : Nat) : Int) := by
  have hsh : specTagShapedL tag.key.data tag.escapeCharacter
      (tag.escapeCharacter :: k.data) := specTagShapedL_cons h
  have : getEscapeCharCount tag (String.mk (tag.escapeCharacter :: k.data))
      = escCount tag.key.data tag.escapeCharacter (tag.escapeCharacter :: k.data) := rfl
  rw [this, escCount_spec _ _ _ (key_data_ne_nil hk), if_pos hsh]
  simp only [List.length_cons]

theorem remove_prepend {tag : TypeTag} (hk : tag.key ≠ "") (k : String) :
    removePrependedEscapeChar tag (prependEscapeChar tag k) = k := by
  by_cases h : specTagShaped tag k
  · rw [prependEscapeChar_of_shaped hk h]
    have hpos : 0 < getEscapeCharCount tag (String.mk (tag.escapeCharacter :: k.data)) := by
      rw [getEscapeCharCount_prepended hk h]
      have := h.1
      omega
    simp only [removePrependedEscapeChar, if_pos hpos]
    rfl
  · rw [prependEscapeChar_of_not_shaped hk h]
    apply removePrependedEscapeChar_of_nonpos
    rw [getEscapeCharCount_spec tag k hk, if_neg h]
    omega

theorem prependEscapeChar_injective {tag : TypeTag} (hk : tag.key ≠ "") :
    Function.Injective (prependEscapeChar tag) := by
  have hli : Function.LeftInverse (removePrependedEscapeChar tag) (prependEscapeChar tag) :=
    remove_prepend hk
  exact hli.injective

theorem specTagShaped_key {tag : TypeTag} : specTagShaped tag tag.key :=
  specTagShapedL_self tag.key.data tag.escapeCharacter

theorem prependEscapeChar_ne_key {tag : TypeTag} (hk : tag.key ≠ "") (k : String) :
    prependEscapeChar tag k ≠ tag.key := by
  by_cases h : specTagShaped tag k
  · rw [prependEscapeChar_of_shaped hk h]
    intro he
    have hdl := congrArg (fun s => s.data.length) he
    have hkl := h.1
    simp only [List.length_cons] at hdl
    omega
  · rw [prependEscapeChar_of_not_shaped hk h]
    intro he
    exact h (he ▸ specTagShaped_key)

/-! Lemmas about the tag test. -/

theorem tagStrictEq_jsOfTag (t : TagValue) : tagStrictEq (jsOfTag t) t = true := by
  cases t <;> simp [jsOfTag, tagStrictEq]

theorem tagStrictEq_undefined (t : TagValue) : tagStrictEq .undefined t = false := by
  cases t <;> rfl

theorem isTagged_false_of_not_mem (cfg : EncoderOptions) (v : JSVal)
    (h : cfg.typeTag.key ∉ (entriesOf v).map Prod.fst) : isTagged cfg v = false := by
  unfold isTagged jsGet
  have hfind : (entriesOf v).find? (fun kv => kv.1 == cfg.typeTag.key) = none := by
    rw [List.find?_eq_none]
    intro kv hkv
    simp only [beq_iff_eq]
    intro he
    exact h (he ▸ List.mem_map_of_mem Prod.fst hkv)
  rw [hfind]
  exact tagStrictEq_undefined _

/-! Branch lemmas for `encodeRef` and `decodeRef`. -/

theorem escCount_self (key : List Char) (esc : Char) : escCount key esc key = 0 := by
  unfold escCount jsSliceEnd
  simp [Nat.sub_self]

theorem getEscapeCharCount_key_self (tag : TypeTag) :
    getEscapeCharCount tag tag.key = 0 :=
  escCount_self tag.key.data tag.escapeCharacter

theorem entriesOf_of_primitive {p : JSVal} (hp : isPrimitive p = true) :
    entriesOf p = [] := by
  cases p <;> simp_all [isPrimitive, entriesOf]

theorem encodeRef_of_source (cfg : EncoderOptions) (v : JSVal)
    (h : cfg.isSource v = true) :
    encodeRef cfg v
      = (.obj (buildEntries ((cfg.typeTag.key, jsOfTag cfg.typeTag.value)
          :: spreadList (replaceObjectKey (prependEscapeChar cfg.typeTag)
              (cfg.toPlainObject v)))), false) := by
  simp [encodeRef, h, replaceObjectKey]

theorem encodeRef_of_not_source (cfg : EncoderOptions) (v : JSVal)
    (h : cfg.isSource v = false) :
    encodeRef cfg v = replaceObjectKeyRef (prependEscapeChar cfg.typeTag) v := by
  simp [encodeRef, h]

theorem decodeRef_of_primitive (cfg : EncoderOptions) (v : JSVal)
    (hp : isPrimitive v = true) : decodeRef cfg v = (v, true) := by
  simp [decodeRef, hp]

theorem decodeRef_of_tagged (cfg : EncoderOptions) (v : JSVal)
    (hp : isPrimitive v = false) (ht : isTagged cfg v = true) :
    decodeRef cfg v
      = (cfg.fromPlainObject
          ((replaceObjectKeyRef (removePrependedEscapeChar cfg.typeTag)
              (stripTag cfg v)).1), false) := by
  simp [decodeRef, hp, ht]

theorem decodeRef_of_untagged (cfg : EncoderOptions) (v : JSVal)
    (hp : isPrimitive v = false) (ht : isTagged cfg v = false) :
    decodeRef cfg v = replaceObjectKeyRef (removePrependedEscapeChar cfg.typeTag) v := by
  simp [decodeRef, hp, ht]

theorem find?_key_of_mem (l : List (String × JSVal)) (k : String) (w : JSVal)
    (hnd : (l.map Prod.fst).Nodup) (hm : (k, w) ∈ l) :
    l.find? (fun kv => kv.1 == k) = some (k, w) := by
  induction l with
  | nil => cases hm
  | cons kv t ih =>
      simp only [List.map_cons, List.nodup_cons] at hnd
      rcases List.mem_cons.mp hm with h | h
      · rw [← h]
        simp [List.find?_cons_of_pos]
      · have hne : kv.1 ≠ k := by
          intro he
          exact hnd.1 (he ▸ List.mem_map_of_mem Prod.fst h)
        rw [List.find?_cons_of_neg _ (by simpa using hne)]
        exact ih hnd.2 h

theorem encode_of_source (cfg : EncoderOptions) (v : JSVal) (h : cfg.isSource v = true) :
    encode cfg v
      = .obj (buildEntries ((cfg.typeTag.key, jsOfTag cfg.typeTag.value)
          :: spreadList (replaceObjectKey (prependEscapeChar cfg.typeTag)
              (cfg.toPlainObject v)))) := by
  unfold encode
  rw [encodeRef_of_source cfg v h]

theorem encode_of_not_source (cfg : EncoderOptions) (v : JSVal)
    (h : cfg.isSource v = false) :
    encode cfg v = replaceObjectKey (prependEscapeChar cfg.typeTag) v := by
  unfold encode replaceObjectKey
  rw [encodeRef_of_not_source cfg v h]

theorem decode_of_primitive (cfg : EncoderOptions) (v : JSVal)
    (hp : isPrimitive v = true) : decode cfg v = v := by
  unfold decode
  rw [decodeRef_of_primitive cfg v hp]

theorem decode_of_tagged (cfg : EncoderOptions) (v : JSVal)
    (hp : isPrimitive v = false) (ht : isTagged cfg v = true) :
    decode cfg v
      = cfg.fromPlainObject
          ((replaceObjectKeyRef (removePrependedEscapeChar cfg.typeTag)
              (stripTag cfg v)).1) := by
  unfold decode
  rw [decodeRef_of_tagged cfg v hp ht]

theorem decode_of_untagged (cfg : EncoderOptions) (v : JSVal)
    (hp : isPrimitive v = false) (ht : isTagged cfg v = false) :
    decode cfg v = replaceObjectKey (removePrependedEscapeChar cfg.typeTag) v := by
  unfold decode replaceObjectKey
  rw [decodeRef_of_untagged cfg v hp ht]

/-- C2: with tag `{key: "$type", value: "Error", escapeChar: "_"}` and an `isSource`
rejecting plain objects, `encode {$type: 1, age: 12}` renames `$type` to `_$type` and adds
no tag pair; the result is untagged (so `decode` does not apply `fromPlainObject`, whose
sentinel result would otherwise appear), the original `$type` value is `1`, and `decode`
restores `_$type` to `$type`, returning an object equal to the original. -/
theorem collision_escape_example :
    encode cfgReject (.obj [("$type", .num 1), ("age", .num 12)])
        = .obj [("_$type", .num 1), ("age", .num 12)]
    ∧ isTagged cfgReject (.obj [("_$type", .num 1), ("age", .num 12)]) = false
    ∧ jsGet (.obj [("$type", .num 1), ("age", .num 12)]) "$type" = .num 1
    ∧ jsGet (.obj [("$type", .num 1), ("age", .num 12)]) "$type" ≠ .str "Error"
    ∧ decode cfgReject (.obj [("_$type", .num 1), ("age", .num 12)])
        = .obj [("$type", .num 1), ("age", .num 12)] := by
  decide

/-- C1 counterexample: a configuration with `isSource` accepting exactly `5`,
`toPlainObject` mapping it to the primitive `7`, and `fromPlainObject` its exact inverse
(`fromPlainObject (toPlainObject 5) = 5`); still `decode (encode 5) ≠ 5`, because the
tag-insertion spread `{[key]: value, ...7}` drops the primitive payload. -/
theorem decode_encode_not_id_on_primitive_payload :
    cfgNumPayload.isSource (.num 5) = true
    ∧ cfgNumPayload.fromPlainObject (cfgNumPayload.toPlainObject (.num 5)) = .num 5
    ∧ decode cfgNumPayload (encode cfgNumPayload (.num 5)) ≠ .num 5
    ∧ decode cfgNumPayload (encode cfgNumPayload (.num 5)) = .obj [] := by
  decide

/-- C7 counterexample: when the sequence is the `toPlainObject` payload of a source value,
tag insertion yields a plain object, not a sequence; and decoding a tagged sequence (an
array carrying `$type: "Error"`) also yields a plain object, even with an identity
`fromPlainObject`.  Sequence-ness is not preserved on the two tagged paths. -/
theorem sequence_lost_on_tag_paths :
    cfgArrPayload.isSource (.num 0) = true
    ∧ isSequence (cfgArrPayload.toPlainObject (.num 0)) = true
    ∧ isSequence (encode cfgArrPayload (.num 0)) = false
    ∧ encode cfgArrPayload (.num 0)
        = .obj [("$type", .str "Error"), ("0", .num 1), ("1", .num 2)]
    ∧ isTagged cfgArrPayload (.arr [("0", .num 1), ("$type", .str "Error")]) = true
    ∧ isSequence (decode cfgArrPayload (.arr [("0", .num 1), ("$type", .str "Error")]))
        = false
    ∧ decode cfgArrPayload (.arr [("0", .num 1), ("$type", .str "Error")])
        = .obj [("0", .num 1)] := by
  decide

/-- C8 counterexample: `decode` is not the identity on every value outside the
plain-tagged shape: an untagged object whose key `_$type` is unescapable is changed (the
key is restored to `$type`). -/
theorem decode_changes_untagged_escaped_key :
    isTagged cfgReject (.obj [("_$type", .num 1)]) = false
    ∧ decode cfgReject (.obj [("_$type", .num 1)]) ≠ .obj [("_$type", .num 1)]
    ∧ decode cfgReject (.obj [("_$type", .num 1)]) = .obj [("$type", .num 1)] := by
  decide

/-- C3: during encode, a top-level key `k` is replaced by `escapeChar + k` exactly when
the spec's rule holds (`n = k.length - key.length >= 0`, trailing substring equals `key`,
all `n` preceding characters equal `escapeChar`); every other key is left unchanged; and
the key-replacement pass maps each entry `(k, v)` to `(prependEscapeChar k, v)`, leaving
all values unchanged.  The spec declares an empty tag key undefined behavior, hence the
`tag.key ≠ ""` hypothesis. -/
theorem prependEscapeChar_matches_spec_rule (tag : TypeTag) (k : String)
    (entries : List (String × JSVal)) (hk : tag.key ≠ "")
    (hnd : (entries.map (fun kv => prependEscapeChar tag kv.1)).Nodup) :
    (specTagShaped tag k
        ↔ prependEscapeChar tag k = String.mk (tag.escapeCharacter :: k.data))
    ∧ (¬ specTagShaped tag k ↔ prependEscapeChar tag k = k)
    ∧ replaceObjectKey (prependEscapeChar tag) (.obj entries)
        = .obj (entries.map (fun kv => (prependEscapeChar tag kv.1, kv.2))) := by
  have hne : String.mk (tag.escapeCharacter :: k.data) ≠ k := by
    intro he
    have hlen := congrArg (fun s => s.data.length) he
    simp only [List.length_cons] at hlen
    omega
  refine ⟨⟨fun h => prependEscapeChar_of_shaped hk h, ?_⟩,
    ⟨fun h => prependEscapeChar_of_not_shaped hk h, ?_⟩,
    replaceObjectKey_obj _ _ hnd⟩
  · intro h
    by_contra hn
    rw [prependEscapeChar_of_not_shaped hk hn] at h
    exact hne h.symm
  · intro h hsh
    rw [prependEscapeChar_of_shaped hk hsh] at h
    exact hne h

theorem prependEscapeChar_matches_spec_rule_witness :
    (specTagShaped demoTag "$type"
        ↔ prependEscapeChar demoTag "$type"
            = String.mk (demoTag.escapeCharacter :: "$type".data))
    ∧ (¬ specTagShaped demoTag "$type" ↔ prependEscapeChar demoTag "$type" = "$type")
    ∧ replaceObjectKey (prependEscapeChar demoTag)
          (.obj [("$type", .num 1), ("age", .num 12)])
        = .obj ([("$type", .num 1), ("age", .num 12)].map
            (fun kv => (prependEscapeChar demoTag kv.1, kv.2))) :=
  prependEscapeChar_matches_spec_rule demoTag "$type" [("$type", .num 1), ("age", .num 12)]
    (by decide) (by decide)

/-- C4: during decode, a top-level key `k` has exactly one leading escape character
stripped exactly when the spec's rule holds (`n = k.length - key.length > 0`, trailing
substring equals `key`, all `n` leading characters equal `escapeChar`), and is unchanged
otherwise; concretely (key `$type`, escape `_`), one encode pass turns a pre-existing
`_$type` into `__$type`, and one decode pass reduces it exactly one level to `_$type`,
never to `$type`. -/
theorem removePrependedEscapeChar_matches_spec_rule (tag : TypeTag) (k : String)
    (hk : tag.key ≠ "") :
    ((specTagShaped tag k ∧ tag.key.data.length < k.data.length)
        → removePrependedEscapeChar tag k = String.mk (k.data.drop 1))
    ∧ (¬ (specTagShaped tag k ∧ tag.key.data.length < k.data.length)
        → removePrependedEscapeChar tag k = k)
    ∧ encode cfgReject (.obj [("_$type", .num 7)]) = .obj [("__$type", .num 7)]
    ∧ decode cfgReject (.obj [("__$type", .num 7)]) = .obj [("_$type", .num 7)]
    ∧ decode cfgReject (.obj [("__$type", .num 7)]) ≠ .obj [("$type", .num 7)] := by
  refine ⟨?_, ?_, by decide, by decide, by decide⟩
  · rintro ⟨hsh, hlt⟩
    have hpos : 0 < getEscapeCharCount tag k := by
      rw [getEscapeCharCount_spec tag k hk, if_pos hsh]
      omega
    simp [removePrependedEscapeChar, hpos]
  · intro hn
    apply removePrependedEscapeChar_of_nonpos
    rw [getEscapeCharCount_spec tag k hk]
    by_cases hsh : specTagShaped tag k
    · rw [if_pos hsh]
      have hnlt : ¬ tag.key.data.length < k.data.length := fun hlt => hn ⟨hsh, hlt⟩
      omega
    · rw [if_neg hsh]
      omega

theorem removePrependedEscapeChar_matches_spec_rule_witness :
    ((specTagShaped demoTag "__$type" ∧ demoTag.key.data.length < "__$type".data.length)
        → removePrependedEscapeChar demoTag "__$type" = String.mk ("__$type".data.drop 1))
    ∧ (¬ (specTagShaped demoTag "__$type" ∧ demoTag.key.data.length < "__$type".data.length)
        → removePrependedEscapeChar demoTag "__$type" = "__$type")
    ∧ encode cfgReject (.obj [("_$type", .num 7)]) = .obj [("__$type", .num 7)]
    ∧ decode cfgReject (.obj [("__$type", .num 7)]) = .obj [("_$type", .num 7)]
    ∧ decode cfgReject (.obj [("__$type", .num 7)]) ≠ .obj [("$type", .num 7)] :=
  removePrependedEscapeChar_matches_spec_rule demoTag "__$type" (by decide)

/-- C5: for every value `v` with `isSource v = false` whose top-level keys contain no
tag-shaped key (escape-count `-1` for all of them), `encode` and `decode` both return the
very same reference `v` (the instrumentation Boolean is `true`, meaning the original
reference is returned unchanged); a tagged `v` is impossible under the hypothesis, since
the tag key itself has escape-count `0`. -/
theorem passthrough_same_reference (cfg : EncoderOptions) (v : JSVal)
    (hsrc : cfg.isSource v = false)
    (hkeys : ∀ kv ∈ entriesOf v, getEscapeCharCount cfg.typeTag kv.1 = -1) :
    encodeRef cfg v = (v, true) ∧ decodeRef cfg v = (v, true) := by
  have hpre : ∀ kv ∈ entriesOf v, prependEscapeChar cfg.typeTag kv.1 = kv.1 := by
    intro kv hkv
    simp [prependEscapeChar, hkeys kv hkv]
  have hrem : ∀ kv ∈ entriesOf v, removePrependedEscapeChar cfg.typeTag kv.1 = kv.1 := by
    intro kv hkv
    apply removePrependedEscapeChar_of_nonpos
    rw [hkeys kv hkv]
    decide
  constructor
  · rw [encodeRef_of_not_source cfg v hsrc]
    exact replaceObjectKeyRef_id _ v hpre
  · by_cases hp : isPrimitive v = true
    · exact decodeRef_of_primitive cfg v hp
    · have ht : isTagged cfg v = false := by
        apply isTagged_false_of_not_mem
        intro hm
        rcases List.mem_map.mp hm with ⟨kv, hkv, hfst⟩
        have h1 := hkeys kv hkv
        rw [hfst, getEscapeCharCount_key_self] at h1
        exact absurd h1 (by decide)
      rw [decodeRef_of_untagged cfg v (by simpa using hp) ht]
      exact replaceObjectKeyRef_id _ v hrem

theorem passthrough_same_reference_witness :
    encodeRef cfgReject (.obj [("age", .num 12), ("name", .str "hello")])
        = (.obj [("age", .num 12), ("name", .str "hello")], true)
    ∧ decodeRef cfgReject (.obj [("age", .num 12), ("name", .str "hello")])
        = (.obj [("age", .num 12), ("name", .str "hello")], true) :=
  passthrough_same_reference cfgReject (.obj [("age", .num 12), ("name", .str "hello")])
    rfl (by decide)

/-- C6: for every keyed container `v` (with duplicate-free keys, as JavaScript objects
have), `decode` applies `fromPlainObject` to the stripped-and-unescaped value exactly when
`v` contains an own entry whose key is the tag key and whose value is strictly equal to
the tag value; when `v` is untagged, `decode`'s result does not depend on
`fromPlainObject` at all (replacing it by any `g` gives the same result), so no untagged
container is ever passed to it. -/
theorem fromPlainObject_applied_iff_tagged (cfg : EncoderOptions) (g : JSVal → JSVal)
    (v : JSVal) (hp : isPrimitive v = false)
    (hnd : ((entriesOf v).map Prod.fst).Nodup) :
    (isTagged cfg v = true
        ↔ ∃ w, (cfg.typeTag.key, w) ∈ entriesOf v
            ∧ tagStrictEq w cfg.typeTag.value = true)
    ∧ (isTagged cfg v = true →
        decode cfg v
          = cfg.fromPlainObject
              ((replaceObjectKeyRef (removePrependedEscapeChar cfg.typeTag)
                  (stripTag cfg v)).1))
    ∧ (isTagged cfg v = false →
        decode { cfg with fromPlainObject := g } v = decode cfg v) := by
  refine ⟨⟨?_, ?_⟩, ?_, ?_⟩
  · intro ht
    unfold isTagged jsGet at ht
    cases hf : (entriesOf v).find? (fun kv => kv.1 == cfg.typeTag.key) with
    | none =>
        rw [hf, tagStrictEq_undefined] at ht
        simp at ht
    | some kv =>
        rw [hf] at ht
        have hpred := List.find?_some hf
        have hmem := List.mem_of_find?_eq_some hf
        refine ⟨kv.2, ?_, ht⟩
        have h1 : kv.1 = cfg.typeTag.key := by simpa using hpred
        rw [← h1]
        simpa [Prod.mk.eta] using hmem
  · rintro ⟨w, hm, hw⟩
    unfold isTagged jsGet
    rw [find?_key_of_mem _ _ _ hnd hm]
    exact hw
  · intro ht
    exact decode_of_tagged cfg v hp ht
  · intro ht
    rw [decode_of_untagged cfg v hp ht,
      decode_of_untagged { cfg with fromPlainObject := g } v hp ht]

theorem fromPlainObject_applied_iff_tagged_witness :
    ((isTagged cfgReject (.obj [("$type", .str "Error"), ("x", .num 1)]) = true
        ↔ ∃ w, (cfgReject.typeTag.key, w)
              ∈ entriesOf (.obj [("$type", .str "Error"), ("x", .num 1)])
            ∧ tagStrictEq w cfgReject.typeTag.value = true)
    ∧ (isTagged cfgReject (.obj [("$type", .str "Error"), ("x", .num 1)]) = true →
        decode cfgReject (.obj [("$type", .str "Error"), ("x", .num 1)])
          = cfgReject.fromPlainObject
              ((replaceObjectKeyRef (removePrependedEscapeChar cfgReject.typeTag)
                  (stripTag cfgReject (.obj [("$type", .str "Error"), ("x", .num 1)]))).1))
    ∧ (isTagged cfgReject (.obj [("$type", .str "Error"), ("x", .num 1)]) = false →
        decode { cfgReject with fromPlainObject := fun _ => .num 99 }
            (.obj [("$type", .str "Error"), ("x", .num 1)])
          = decode cfgReject (.obj [("$type", .str "Error"), ("x", .num 1)]))) :=
  fromPlainObject_applied_iff_tagged cfgReject (fun _ => .num 99)
    (.obj [("$type", .str "Error"), ("x", .num 1)]) rfl (by decide)

/-- C8 (amended): `decode` is the identity on every value that is not tagged and whose
top-level keys all have non-positive escape-count (so none is strippable); the original
claim, identity on every non-tagged value regardless of its keys, fails because decode
also unescapes keys (see the counterexample). -/
theorem decode_id_of_untagged_unescapable (cfg : EncoderOptions) (v : JSVal)
    (ht : isTagged cfg v = false)
    (hkeys : ∀ kv ∈ entriesOf v, ¬ 0 < getEscapeCharCount cfg.typeTag kv.1) :
    decode cfg v = v := by
  by_cases hp : isPrimitive v = true
  · exact decode_of_primitive cfg v hp
  · have hrem : ∀ kv ∈ entriesOf v, removePrependedEscapeChar cfg.typeTag kv.1 = kv.1 :=
      fun kv hkv => removePrependedEscapeChar_of_nonpos (hkeys kv hkv)
    rw [decode_of_untagged cfg v (by simpa using hp) ht]
    unfold replaceObjectKey
    rw [replaceObjectKeyRef_id _ v hrem]

theorem decode_id_of_untagged_unescapable_witness :
    decode cfgReject (.obj [("$type", .num 1), ("age", .num 12)])
      = .obj [("$type", .num 1), ("age", .num 12)] :=
  decode_id_of_untagged_unescapable cfgReject (.obj [("$type", .num 1), ("age", .num 12)])
    (by decide) (by decide)

/-- C9: neither `encode` nor `decode` ever mutates its input (the embedding is pure: the
source writes only into freshly allocated containers — the clone, the spread literal —
never into the input); the instrumentation Boolean verifies the reference dichotomy: when
it is `true` the call returns the original reference unchanged, and it is `true` exactly
when no transformation was necessary (`encode`: input is not a source value and no key
needed escaping; `decode`: input is primitive, or untagged with no key needing
unescaping); when it is `false` the result is a freshly allocated output, the input left
as it was. -/
theorem no_mutation_reference_dichotomy (cfg : EncoderOptions) (v : JSVal) :
    ((encodeRef cfg v).2 = true → (encodeRef cfg v).1 = v)
    ∧ ((encodeRef cfg v).2
        = (!cfg.isSource v
            && !((entriesOf v).any
                (fun kv => prependEscapeChar cfg.typeTag kv.1 != kv.1))))
    ∧ ((decodeRef cfg v).2 = true → (decodeRef cfg v).1 = v)
    ∧ ((decodeRef cfg v).2
        = (isPrimitive v
            || (!isTagged cfg v
                && !((entriesOf v).any
                    (fun kv => removePrependedEscapeChar cfg.typeTag kv.1 != kv.1))))) := by
  refine ⟨?_, ?_, ?_, ?_⟩
  · intro h
    by_cases hs : cfg.isSource v = true
    · rw [encodeRef_of_source cfg v hs] at h
      simp at h
    · rw [encodeRef_of_not_source cfg v (by simpa using hs)] at h ⊢
      exact replaceObjectKeyRef_ref _ v h
  · by_cases hs : cfg.isSource v = true
    · rw [encodeRef_of_source cfg v hs, hs]
      rfl
    · have hs2 : cfg.isSource v = false := by simpa using hs
      rw [encodeRef_of_not_source cfg v hs2, hs2, replaceObjectKeyRef_snd]
      simp
  · intro h
    by_cases hp : isPrimitive v = true
    · rw [decodeRef_of_primitive cfg v hp]
    · have hp2 : isPrimitive v = false := by simpa using hp
      by_cases ht : isTagged cfg v = true
      · rw [decodeRef_of_tagged cfg v hp2 ht] at h
        simp at h
      · have ht2 : isTagged cfg v = false := by simpa using ht
        rw [decodeRef_of_untagged cfg v hp2 ht2] at h ⊢
        exact replaceObjectKeyRef_ref _ v h
  · by_cases hp : isPrimitive v = true
    · rw [decodeRef_of_primitive cfg v hp, hp]
      rfl
    · have hp2 : isPrimitive v = false := by simpa using hp
      by_cases ht : isTagged cfg v = true
      · rw [decodeRef_of_tagged cfg v hp2 ht, hp2, ht]
        rfl
      · have ht2 : isTagged cfg v = false := by simpa using ht
        rw [decodeRef_of_untagged cfg v hp2 ht2, hp2, ht2, replaceObjectKeyRef_snd]
        simp

theorem no_mutation_reference_dichotomy_witness :
    (((encodeRef cfgReject (.obj [("$type", .num 3)])).2 = true
        → (encodeRef cfgReject (.obj [("$type", .num 3)])).1 = .obj [("$type", .num 3)])
    ∧ ((encodeRef cfgReject (.obj [("$type", .num 3)])).2
        = (!cfgReject.isSource (.obj [("$type", .num 3)])
            && !((entriesOf (.obj [("$type", .num 3)])).any
                (fun kv => prependEscapeChar cfgReject.typeTag kv.1 != kv.1))))
    ∧ (((decodeRef cfgReject (.obj [("$type", .num 3)])).2 = true
        → (decodeRef cfgReject (.obj [("$type", .num 3)])).1 = .obj [("$type", .num 3)])
    ∧ ((decodeRef cfgReject (.obj [("$type", .num 3)])).2
        = (isPrimitive (.obj [("$type", .num 3)])
            || (!isTagged cfgReject (.obj [("$type", .num 3)])
                && !((entriesOf (.obj [("$type", .num 3)])).any
                    (fun kv => removePrependedEscapeChar cfgReject.typeTag kv.1
                      != kv.1))))))) :=
  no_mutation_reference_dichotomy cfgReject (.obj [("$type", .num 3)])

/-- C10: for every source value whose `toPlainObject` payload `p` is a primitive, `encode`
does not return `p`: it returns a keyed container built from the tag pair followed by
`p`'s enumerable index entries (none for non-strings, the individual characters for a
string, per `spreadList`), so the primitive payload itself is absent from the output. -/
theorem encode_primitive_payload_spread (cfg : EncoderOptions) (s p : JSVal)
    (hsrc : cfg.isSource s = true)
    (hplain : cfg.toPlainObject s = p)
    (hp : isPrimitive p = true) :
    encode cfg s
        = .obj (buildEntries ((cfg.typeTag.key, jsOfTag cfg.typeTag.value)
            :: spreadList p))
    ∧ encode cfg s ≠ p := by
  have hid : replaceObjectKey (prependEscapeChar cfg.typeTag) p = p := by
    unfold replaceObjectKey
    rw [replaceObjectKeyRef_id _ p
      (by rw [entriesOf_of_primitive hp]; intro kv hkv; cases hkv)]
  have h1 : encode cfg s
      = .obj (buildEntries ((cfg.typeTag.key, jsOfTag cfg.typeTag.value)
          :: spreadList p)) := by
    rw [encode_of_source cfg s hsrc, hplain, hid]
  refine ⟨h1, ?_⟩
  rw [h1]
  cases p with
  | obj e => simp [isPrimitive] at hp
  | arr e => simp [isPrimitive] at hp
  | undefined => exact fun he => JSVal.noConfusion he
  | null => exact fun he => JSVal.noConfusion he
  | bool b => exact fun he => JSVal.noConfusion he
  | num n => exact fun he => JSVal.noConfusion he
  | str s2 => exact fun he => JSVal.noConfusion he

theorem encode_primitive_payload_spread_witness :
    (encode cfgStrPayload (.num 0)
        = .obj (buildEntries ((cfgStrPayload.typeTag.key,
            jsOfTag cfgStrPayload.typeTag.value) :: spreadList (.str "ab")))
      ∧ encode cfgStrPayload (.num 0) ≠ .str "ab")
    ∧ encode cfgStrPayload (.num 0)
        = .obj [("$type", .str "Error"), ("0", .str "a"), ("1", .str "b")] :=
  ⟨encode_primitive_payload_spread cfgStrPayload (.num 0) (.str "ab") rfl rfl rfl,
    by decide⟩

/-- C1 (amended): for every source value `s` whose `toPlainObject` payload is a plain
(non-sequence) keyed container with duplicate-free keys, and whose `fromPlainObject` is
inverse to `toPlainObject` at `s`, `decode (encode s) = s`: encode escapes tag-shaped
keys and inserts the tag pair first; decode detects the tag, strips it, unescapes one
level and applies `fromPlainObject`.  (The original claim, over all source values, fails
for primitive payloads — see the counterexample.) -/
theorem decode_encode_roundtrip_plain_payload (cfg : EncoderOptions) (s : JSVal)
    (entries : List (String × JSVal))
    (hk : cfg.typeTag.key ≠ "")
    (hsrc : cfg.isSource s = true)
    (hplain : cfg.toPlainObject s = .obj entries)
    (hnd : (entries.map Prod.fst).Nodup)
    (hinv : cfg.fromPlainObject (.obj entries) = s) :
    decode cfg (encode cfg s) = s := by
  have hmapnd : (entries.map (fun kv => prependEscapeChar cfg.typeTag kv.1)).Nodup := by
    have h2 : ((entries.map Prod.fst).map (prependEscapeChar cfg.typeTag)).Nodup :=
      List.Nodup.map (prependEscapeChar_injective hk) hnd
    simpa [List.map_map, Function.comp] using h2
  have hEkeys :
      (entries.map (fun kv => (prependEscapeChar cfg.typeTag kv.1, kv.2))).map Prod.fst
        = entries.map (fun kv => prependEscapeChar cfg.typeTag kv.1) := by
    simp [List.map_map, Function.comp]
  have hkeynot : cfg.typeTag.key
      ∉ (entries.map (fun kv => (prependEscapeChar cfg.typeTag kv.1, kv.2))).map
          Prod.fst := by
    rw [hEkeys]
    intro hm
    rcases List.mem_map.mp hm with ⟨kv, hkv, he⟩
    exact prependEscapeChar_ne_key hk kv.1 he
  have hndE : (((cfg.typeTag.key, jsOfTag cfg.typeTag.value)
      :: entries.map (fun kv => (prependEscapeChar cfg.typeTag kv.1, kv.2))).map
        Prod.fst).Nodup := by
    simp only [List.map_cons, List.nodup_cons]
    constructor
    · simpa using hkeynot
    · rw [hEkeys]
      exact hmapnd
  have hbuild : buildEntries ((cfg.typeTag.key, jsOfTag cfg.typeTag.value)
      :: entries.map (fun kv => (prependEscapeChar cfg.typeTag kv.1, kv.2)))
      = (cfg.typeTag.key, jsOfTag cfg.typeTag.value)
        :: entries.map (fun kv => (prependEscapeChar cfg.typeTag kv.1, kv.2)) :=
    buildEntries_eq_self hndE
  have hEnc : encode cfg s
      = .obj ((cfg.typeTag.key, jsOfTag cfg.typeTag.value)
          :: entries.map (fun kv => (prependEscapeChar cfg.typeTag kv.1, kv.2))) := by
    rw [encode_of_source cfg s hsrc, hplain, replaceObjectKey_obj _ entries hmapnd]
    rw [show spreadList (JSVal.obj (entries.map
          (fun kv => (prependEscapeChar cfg.typeTag kv.1, kv.2))))
        = entries.map (fun kv => (prependEscapeChar cfg.typeTag kv.1, kv.2)) from rfl]
    rw [hbuild]
  have hpX : isPrimitive (encode cfg s) = false := by
    rw [hEnc]
    rfl
  have hTag : isTagged cfg (encode cfg s) = true := by
    rw [hEnc]
    unfold isTagged jsGet
    rw [show entriesOf (JSVal.obj ((cfg.typeTag.key, jsOfTag cfg.typeTag.value)
          :: entries.map (fun kv => (prependEscapeChar cfg.typeTag kv.1, kv.2))))
        = (cfg.typeTag.key, jsOfTag cfg.typeTag.value)
          :: entries.map (fun kv => (prependEscapeChar cfg.typeTag kv.1, kv.2)) from rfl]
    rw [List.find?_cons_of_pos _ (by simp)]
    exact tagStrictEq_jsOfTag _
  have hEfilter :
      (entries.map (fun kv => (prependEscapeChar cfg.typeTag kv.1, kv.2))).filter
        (fun kv => kv.1 != cfg.typeTag.key)
      = entries.map (fun kv => (prependEscapeChar cfg.typeTag kv.1, kv.2)) := by
    rw [List.filter_eq_self]
    intro kv hkv
    simp only [bne_iff_ne, ne_eq]
    intro he
    exact hkeynot (he ▸ List.mem_map_of_mem Prod.fst hkv)
  have hstrip : stripTag cfg (encode cfg s)
      = .obj (entries.map (fun kv => (prependEscapeChar cfg.typeTag kv.1, kv.2))) := by
    rw [hEnc]
    unfold stripTag
    rw [show entriesOf (JSVal.obj ((cfg.typeTag.key, jsOfTag cfg.typeTag.value)
          :: entries.map (fun kv => (prependEscapeChar cfg.typeTag kv.1, kv.2))))
        = (cfg.typeTag.key, jsOfTag cfg.typeTag.value)
          :: entries.map (fun kv => (prependEscapeChar cfg.typeTag kv.1, kv.2)) from rfl]
    rw [hbuild, List.filter_cons]
    simp only [bne_self_eq_false, Bool.false_eq_true, if_false]
    rw [hEfilter]
  have hremkeys :
      (entries.map (fun kv => (prependEscapeChar cfg.typeTag kv.1, kv.2))).map
        (fun kv => removePrependedEscapeChar cfg.typeTag kv.1)
      = entries.map Prod.fst := by
    simp only [List.map_map, Function.comp]
    exact List.map_congr_left (fun kv hkv => remove_prepend hk kv.1)
  have hndrem :
      ((entries.map (fun kv => (prependEscapeChar cfg.typeTag kv.1, kv.2))).map
        (fun kv => removePrependedEscapeChar cfg.typeTag kv.1)).Nodup := by
    rw [hremkeys]
    exact hnd
  have hunesc : replaceObjectKey (removePrependedEscapeChar cfg.typeTag)
      (.obj (entries.map (fun kv => (prependEscapeChar cfg.typeTag kv.1, kv.2))))
      = .obj entries := by
    rw [replaceObjectKey_obj _ _ hndrem]
    congr 1
    rw [List.map_map]
    have h3 : ∀ kv ∈ entries,
        ((fun kv => (removePrependedEscapeChar cfg.typeTag kv.1, kv.2)) ∘
            (fun kv => (prependEscapeChar cfg.typeTag kv.1, kv.2))) kv = id kv := by
      intro kv hkv
      show (removePrependedEscapeChar cfg.typeTag (prependEscapeChar cfg.typeTag kv.1),
        kv.2) = id kv
      rw [remove_prepend hk kv.1]
      exact Prod.mk.eta
    rw [List.map_congr_left h3, List.map_id]
  rw [decode_of_tagged cfg (encode cfg s) hpX hTag, hstrip]
  have h4 : (replaceObjectKeyRef (removePrependedEscapeChar cfg.typeTag)
      (.obj (entries.map (fun kv => (prependEscapeChar cfg.typeTag kv.1, kv.2))))).1
      = .obj entries := hunesc
  rw [h4]
  exact hinv

theorem decode_encode_roundtrip_plain_payload_witness :
    cfgStrSource.isSource (.str "SRC") = true
    ∧ decode cfgStrSource (encode cfgStrSource (.str "SRC")) = .str "SRC" :=
  ⟨rfl, decode_encode_roundtrip_plain_payload cfgStrSource (.str "SRC")
    [("name", .str "SRC")] (by decide) rfl rfl (by decide) rfl⟩

/-- C7 (amended): encoding a sequence not recognised as a source value, and decoding an
untagged sequence, preserve sequence-ness and index order (each entry `(k, v)` is mapped
in place to `(escapedKey k, v)`); but the two tagged paths — tag insertion over a sequence
payload and decoding of a tagged sequence — produce a generic mapping instead (see the
counterexample). -/
theorem sequence_preserved_untagged (cfg : EncoderOptions)
    (entries : List (String × JSVal))
    (hsrc : cfg.isSource (.arr entries) = false)
    (ht : isTagged cfg (.arr entries) = false)
    (hnd1 : (entries.map (fun kv => prependEscapeChar cfg.typeTag kv.1)).Nodup)
    (hnd2 : (entries.map (fun kv => removePrependedEscapeChar cfg.typeTag kv.1)).Nodup) :
    encode cfg (.arr entries)
        = .arr (entries.map (fun kv => (prependEscapeChar cfg.typeTag kv.1, kv.2)))
    ∧ decode cfg (.arr entries)
        = .arr (entries.map (fun kv => (removePrependedEscapeChar cfg.typeTag kv.1,
            kv.2))) := by
  constructor
  · rw [encode_of_not_source cfg _ hsrc]
    exact replaceObjectKey_arr _ _ hnd1
  · rw [decode_of_untagged cfg (.arr entries) rfl ht]
    exact replaceObjectKey_arr _ _ hnd2

theorem sequence_preserved_untagged_witness :
    encode cfgReject (.arr [("$type", .num 1), ("x", .num 2)])
        = .arr ([("$type", .num 1), ("x", .num 2)].map
            (fun kv => (prependEscapeChar cfgReject.typeTag kv.1, kv.2)))
    ∧ decode cfgReject (.arr [("$type", .num 1), ("x", .num 2)])
        = .arr ([("$type", .num 1), ("x", .num 2)].map
            (fun kv => (removePrependedEscapeChar cfgReject.typeTag kv.1, kv.2))) :=
  sequence_preserved_untagged cfgReject [("$type", .num 1), ("x", .num 2)]
    rfl (by decide) (by decide) (by decide)

end ObjectEncoder
